import Mathlib

/-!
Verification of the Anima knowledge-base pipelines
(`PessoasCulturaESG2.py`, canonical variant, and `weduka2.py`, the weduka
variant).  Python strings are modelled as Lean `String`s (lists of unicode
scalar values), dicts of the JSON payloads as inductive types covering the
shapes the code distinguishes, and the `requests`-level effects are cut at
the parsed-response boundary: `_call_anima_api`'s success path is a pure
function of the decoded JSON body.
-/

namespace Pocs

/-! ## Python string primitives (char-list level) -/

/-- Whitespace as stripped by Python's `str.strip` / `rstrip` / `lstrip`
(ASCII whitespace: space, tab, newline, carriage return, vertical tab,
form feed). -/
def pySpace (c : Char) : Bool :=
  c = ' ' || c = '\t' || c = '\n' || c = '\r' || c = '\x0b' || c = '\x0c'

/-- Chars of `s.lstrip()`. -/
def stripLC (l : List Char) : List Char := l.dropWhile pySpace

/-- Chars of `s.rstrip()`: reverse, drop leading whitespace, reverse back. -/
def stripRC (l : List Char) : List Char := (stripLC l.reverse).reverse

/-- Chars of `s.strip()`. -/
def stripC (l : List Char) : List Char := stripRC (stripLC l)

/-- Python `s.strip()`. -/
def pyStrip (s : String) : String := ⟨stripC s.data⟩

/-- Python `s.lstrip()`. -/
def pyLStrip (s : String) : String := ⟨stripLC s.data⟩

/-- Python `s.rstrip()`. -/
def pyRStrip (s : String) : String := ⟨stripRC s.data⟩

/-- Does `m` occur as a contiguous subsequence of `l`?  Models Python's
substring operator `m in l`. -/
def containsSeq (m : List Char) : List Char → Bool
  | [] => m.isEmpty
  | c :: t => m.isPrefixOf (c :: t) || containsSeq m t

/-- Python `needle in hay` on strings. -/
def pyIn (needle hay : String) : Bool := containsSeq needle.data hay.data

/-- Chars of `l` strictly before the first occurrence of `m`
(all of `l` if `m` does not occur).  Models `l.split(m, 1)[0]`. -/
def takeBeforeSeq (m : List Char) : List Char → List Char
  | [] => []
  | c :: t => if m.isPrefixOf (c :: t) then [] else c :: takeBeforeSeq m t

/-- Python `s.split(marker, 1)[0]`. -/
def pySplitFirstBefore (marker s : String) : String :=
  ⟨takeBeforeSeq marker.data s.data⟩

/-- Chars after the last slash: Python `s.split('/')[-1]`
(the whole string when it has no slash). -/
def splitSlashLastC (l : List Char) : List Char :=
  (l.reverse.takeWhile (fun c => !(c = '/'))).reverse

/-- Python `s.split('/')[-1]`. -/
def pySplitSlashLast (s : String) : String := ⟨splitSlashLastC s.data⟩

/-- Extension part of `os.path.splitext` on a slash-free basename: the
suffix from the last dot on, empty when there is no dot or when every
char before the last dot is itself a dot (hidden files like `.bashrc`). -/
def splitextExtC (l : List Char) : List Char :=
  match l.reverse.findIdx? (fun c => c = '.') with
  | none => []
  | some i =>
    match (l.take (l.length - 1 - i)).any (fun c => !(c = '.')) with
    | true => (l.reverse.take (i + 1)).reverse
    | false => []

/-- Python `os.path.splitext(s)[1]` for a slash-free `s`. -/
def pySplitextExt (s : String) : String := ⟨splitextExtC s.data⟩

/-- Python `s.lower()` (ASCII case folding, which is all the allow-list
comparison needs). -/
def pyLower (s : String) : String := ⟨s.data.map Char.toLower⟩

/-- Python `str.capitalize`: first char upper-cased, the rest lower-cased. -/
def pyCapitalize (s : String) : String :=
  match s.data with
  | [] => ⟨[]⟩
  | c :: t => ⟨c.toUpper :: t.map Char.toLower⟩

/-- Python `sep.join(parts)`. -/
def joinSep (sep : String) : List String → String
  | [] => ""
  | [a] => a
  | a :: b :: t => a ++ sep ++ joinSep sep (b :: t)

/-- Code-point lexicographic `≤` on char lists, the order Python's
`sorted` uses on strings. -/
def lexLe : List Char → List Char → Bool
  | [], _ => true
  | _ :: _, [] => false
  | a :: as, b :: bs =>
    if a.toNat < b.toNat then true
    else if b.toNat < a.toNat then false
    else lexLe as bs

/-- Python string `≤` (code-point lexicographic). -/
def strLe (a b : String) : Bool := lexLe a.data b.data

/-- Insert a string into a `strLe`-sorted list, before the first element it
is `strLe`-below. -/
def insertLe (a : String) : List String → List String
  | [] => [a]
  | b :: t => if strLe a b then a :: b :: t else b :: insertLe a t

/-- Python `sorted` on a list of strings: a stable sort by the code-point
lexicographic order (insertion sort here; stability and the antisymmetry of
`strLe` make the result identical to that of any stable sort, CPython's
timsort included). -/
def sortStrings : List String → List String
  | [] => []
  | a :: t => insertLe a (sortStrings t)

/-! ## Data model for the `citations` JSON payload

A citation entry is either a dict carrying a `retrievedReferences` list, a
plain string, or some other JSON value (skipped by both formatters).  A
retrieved reference is reduced to the value of
`ref["location"]["s3Location"]["uri"]`: `uri u` when that path yields the
string `u`, and `noUri` when any step of the lookup is absent or not a
dict/string (the code then finds no uri for that reference). -/

inductive CitationRef where
  | uri (u : String)
  | noUri
deriving DecidableEq

/-- One element of the `citations` list. -/
inductive Citation where
  | obj (refs : List CitationRef)
  | str (s : String)
  | other
deriving DecidableEq

/-! ## Canonical formatter: `PessoasCulturaESG2._format_citations` -/

/-- Constant `self.not_found_indicator`. -/
def notFoundIndicator : String :=
  "Não encontrei a informação sobre isso na base de conhecimento"

/-- Constant `self.allowed_citation_extensions` (a Python set of lowercase
extension strings; modelled as a list, membership being all that is used). -/
def allowedCitationExtensions : List String :=
  [".txt", ".pdf", ".doc", ".docx", ".ppt", ".pptx",
   ".xlsx", ".xls", ".csv", ".json", ".jpeg",
   ".jpg", ".png", ".md"]

/-- Constant `self.max_citation_filename_length`. -/
def maxCitationFilenameLength : Nat := 50

/-- Constant `sources_marker` of `_format_history_string`. -/
def sourcesMarker : String := "\n\n**Fontes:**"

/-- Inner loop of the canonical `_format_citations` over one citation's
`retrievedReferences`: the first reference with a non-empty string uri wins
(the Python loop `break`s there); empty or missing uris are passed over. -/
def firstRefUri : List CitationRef → Option String
  | [] => none
  | .noUri :: rest => firstRefUri rest
  | .uri u :: rest => if u ≠ "" then some u else firstRefUri rest

/-- The `source_identifier` / `display_source` pair the canonical
`_format_citations` extracts from one citation, `none` when the citation
yields no candidate.  For a dict citation the display is
`uri.split('/')[-1]`; for a non-empty string citation it is
`s.split('/')[-1]` when the string contains a slash, else the string. -/
def citationIdDisplay : Citation → Option (String × String)
  | .obj refs =>
    match firstRefUri refs with
    | some u => some (u, pySplitSlashLast u)
    | none => none
  | .str s =>
    if s ≠ "" then some (s, if pyIn "/" s then pySplitSlashLast s else s)
    else none
  | .other => none

/-- One iteration of the canonical `_format_citations` accumulation.  The
state is the list of accepted `(source_identifier, display_source)` pairs
in acceptance order; `unique_source_identifiers` is its first projection
and `valid_references_to_display` its second.  A candidate is appended only
when the display is non-empty, the identifier unseen, the display no longer
than the configured maximum, and the lower-cased extension allow-listed. -/
def citeFold (pairs : List (String × String)) (c : Citation) :
    List (String × String) :=
  match citationIdDisplay c with
  | none => pairs
  | some (id, disp) =>
    if disp ≠ "" && !((pairs.map Prod.fst).contains id) then
      if disp.length ≤ maxCitationFilenameLength then
        if allowedCitationExtensions.contains (pyLower (pySplitextExt disp)) then
          pairs ++ [(id, disp)]
        else pairs
      else pairs
    else pairs

/-- Accepted `(identifier, display)` pairs of the canonical
`_format_citations` over the whole `citations_data` list. -/
def acceptedCitations (citations_data : List Citation) : List (String × String) :=
  citations_data.foldl citeFold []

/-- Rendered line list: `f"{i}. {source}"` for `i, source` in
`enumerate(sorted(valid_references_to_display), 1)`. -/
def renderedLines (names : List String) : List String :=
  names.enum.map (fun p => toString (p.1 + 1) ++ ". " ++ p.2)

/-- Canonical `_format_citations`: empty string when nothing survives,
otherwise the fixed header followed by the numbered, sorted display names,
newline-separated. -/
def formatCitations (citations_data : List Citation) : String :=
  let disp := (acceptedCitations citations_data).map Prod.snd
  if disp.isEmpty then ""
  else "\n\n**Fontes:**\n" ++ joinSep "\n" (renderedLines (sortStrings disp))

/-! ## weduka variant: `weduka2._format_citations`

Differences from the canonical formatter, straight from the source: every
reference of a citation is considered (no `break` after the first uri), a
dict citation's display is `uri.split('/')[-1]` only when the uri contains
`"s3://"`, there is no display-name truthiness, length or extension check,
each line ends with a newline and the final result is `rstrip`-ped. -/

/-- Accumulation of `weduka2._format_citations`, same pair-state convention
as `citeFold` (`unique_sources` = first projections, `formatted_references`
= second projections). -/
def wedukaCiteFold (pairs : List (String × String)) (c : Citation) :
    List (String × String) :=
  match c with
  | .obj refs =>
    refs.foldl
      (fun ps r =>
        match r with
        | .uri u =>
          if u ≠ "" && !((ps.map Prod.fst).contains u) then
            ps ++ [(u, if pyIn "s3://" u then pySplitSlashLast u else u)]
          else ps
        | .noUri => ps)
      pairs
  | .str s =>
    if s ≠ "" && !((pairs.map Prod.fst).contains s) then
      pairs ++ [(s, if pyIn "/" s then pySplitSlashLast s else s)]
    else pairs
  | .other => pairs

/-- Concatenation of a list of strings (models `+=` accumulation). -/
def concatAll : List String → String
  | [] => ""
  | a :: t => a ++ concatAll t

/-- weduka `_format_citations`: header plus `f"{i+1}. {source}\n"` for
`i, source` in `enumerate(sorted(list(formatted_references)))`, the whole
result `rstrip`-ped; empty string when nothing was collected. -/
def wedukaFormatCitations (citations_data : List Citation) : String :=
  let disp := (citations_data.foldl wedukaCiteFold []).map Prod.snd
  if disp.isEmpty then ""
  else
    pyRStrip ("\n\n**Fontes:**\n" ++
      concatAll ((sortStrings disp).enum.map
        (fun p => toString (p.1 + 1) ++ ". " ++ p.2 ++ "\n")))

/-! ## Conversation messages and `_format_history_string` -/

/-- One element of a structured `content` list.  `text s` models a dict
with `type == "text"` whose `text` field is the string `s` when present
(`none` when the `text` key is absent); `other` models any element that is
not a dict or whose `type` is not `"text"`. -/
inductive Part where
  | text (s : Option String)
  | other
deriving DecidableEq

/-- A message's `content` value: a plain string, a list of parts, or any
other JSON value (which extracts to empty text). -/
inductive Content where
  | str (s : String)
  | parts (ps : List Part)
  | other
deriving DecidableEq

/-- A conversation message: `role` (default `"unknown"` handled by the
caller supplying that string) and `content`. -/
structure Message where
  role : String
  content : Content
deriving DecidableEq

/-- `item.get("text", "")` over the text parts of a content list. -/
def partText : Part → Option String
  | .text s => some (s.getD "")
  | .other => none

/-- Extracted text of a message content, as computed by
`_format_history_string`: the string itself, or the newline-join of the
non-empty `text` fields of the `type == "text"` parts, or `""`. -/
def extractText : Content → String
  | .str s => s
  | .parts ps => joinSep "\n" ((ps.filterMap partText).filter (fun s => s ≠ ""))
  | .other => ""

/-- Loop body of `_format_history_string` for one message: `none` when the
message contributes no line (empty extracted text, or an assistant turn
whose text is empty after cutting at the sources marker and trimming),
otherwise the `f"{role.capitalize()}: {content_text}"` line. -/
def renderMessage (msg : Message) : Option String :=
  let content_text := extractText msg.content
  if content_text = "" then none
  else
    let content_text :=
      if msg.role = "assistant" then
        pyRStrip (pySplitFirstBefore sourcesMarker content_text)
      else content_text
    if content_text = "" then none
    else some (pyCapitalize msg.role ++ ": " ++ content_text)

/-- `_format_history_string`: newline-join of the rendered lines. -/
def formatHistoryString (history_messages : List Message) : String :=
  joinSep "\n" (history_messages.filterMap renderMessage)

/-! ## `_call_anima_api` success path -/

/-- Parsed JSON body of a successful backend response:
`data.get('outputText', '')` and `data.get('citations', [])` (a non-list
`citations` value is replaced by `[]` by the code, so the field is already
a list here). -/
structure AnimaResponse where
  outputText : String
  citations : List Citation
deriving DecidableEq

/-- Constant fallback answer of `_call_anima_api`. -/
def noAnswerFallback : String :=
  "Não foi possível gerar uma resposta com as informações disponíveis."

/-- Success path of `_call_anima_api` after `response.json()`: strip the
output text; if it contains the not-found indicator return it as is,
otherwise append the rendered citations (or lstrip them when the output is
empty, or fall back to the fixed message when both are empty); the final
`return` strips the result once more. -/
def callAnimaApiSuccess (resp : AnimaResponse) : String :=
  let output_text := pyStrip resp.outputText
  let final_response_text :=
    if pyIn notFoundIndicator output_text then output_text
    else
      let citations_text := formatCitations resp.citations
      if output_text ≠ "" then output_text ++ citations_text
      else if citations_text ≠ "" then pyLStrip citations_text
      else noAnswerFallback
  pyStrip final_response_text

/-! ## `pipe` -/

/-- Constant error string for a missing user message. -/
def noUserMessageError : String := "Erro: Nenhuma mensagem de usuário fornecida."

/-- Constant error string for an unresolvable user id. -/
def noUserIdError : String :=
  "Erro: ID do usuário ('user.name' ou 'user_id') não encontrado na requisição."

/-- Outcome of the modelled `pipe` front end: an early literal error, or
an invocation of the backend collaborator `_call_anima_api` with the built
prompt.  The network call itself is outside the pure model. -/
inductive PipeAction where
  | error (msg : String)
  | callApi (prompt : String)
deriving DecidableEq

/-- `pop_system_message` fallback: remove and return the first message when
it is a system message. -/
def popSystemMessage (messages : List Message) :
    Option Message × List Message :=
  match messages with
  | m :: t => if m.role = "system" then (some m, t) else (none, messages)
  | [] => (none, [])

/-- The duplicate test of `pipe` on the last message's content: a plain
string equal to `user_message`, or a single-element list whose element is a
`type == "text"` dict with `text` equal to `user_message`. -/
def isDuplicateContent (user_message : String) : Content → Bool
  | .str s => s = user_message
  | .parts ps =>
    match ps with
    | [.text t] => t = some user_message
    | _ => false
  | .other => false

/-- The guard of `pipe` dropping a re-included final user turn: when the
last message has role `"user"` and duplicate content, the conversation
loses its last element; otherwise it is unchanged. -/
def dropDuplicateLast (user_message : String) (ms : List Message) :
    List Message :=
  match ms.getLast? with
  | some m =>
    if m.role = "user" && isDuplicateContent user_message m.content then
      ms.dropLast
    else ms
  | none => ms

/-- Fixed trailing instruction appended to the user message in the prompt. -/
def instrSuffix : String :=
  "\n\n(Instrução: Por favor, me responda em português brasileiro.)"

/-- Prompt assembly of `pipe` from the base instructions, the (already
duplicate-filtered) history string and the user message. -/
def buildPrompt (base : String) (user_message history_string : String) : String :=
  let prompt_parts :=
    [base] ++
    (if history_string ≠ "" then
      ["\n\n--- Histórico da Conversa Anterior ---", history_string,
       "--- Fim do Histórico ---"]
     else []) ++
    ["\n\n--- Pergunta Atual do Usuário ---",
     pyStrip user_message ++ instrSuffix]
  pyStrip (joinSep "\n" prompt_parts)

/-- `req_user_id` resolution: `body["user"]["name"]` when truthy, else
`body["user_id"]` when truthy, else unresolved.  `none` models an absent
key (or a non-dict `body["user"]`), `some ""` a present falsy string. -/
def resolveUserId (bodyUserName bodyUserId : Option String) : Option String :=
  match bodyUserName with
  | some s => if s ≠ "" then some s else
      (match bodyUserId with
       | some t => if t ≠ "" then some t else none
       | none => none)
  | none =>
      match bodyUserId with
      | some t => if t ≠ "" then some t else none
      | none => none

/-- Front end of `pipe` up to the backend call: early error on an empty
user message, early error on an unresolvable user id, otherwise pop the
system message, drop a duplicated final user turn, format the history and
call the backend with the assembled prompt.  `bodyPromptTemplate` models
`body.get("prompt_template")` and `valveTemplate` the configured default
template. -/
def pipeDecision (user_message : String)
    (bodyUserName bodyUserId bodyPromptTemplate : Option String)
    (valveTemplate : String) (messages : List Message) : PipeAction :=
  if user_message = "" then .error noUserMessageError
  else
    match resolveUserId bodyUserName bodyUserId with
    | none => .error noUserIdError
    | some _ =>
      let conv := (popSystemMessage messages).2
      let conv := dropDuplicateLast user_message conv
      let history_string := formatHistoryString conv
      let base :=
        match bodyPromptTemplate with
        | some s => if s ≠ "" then s else valveTemplate
        | none => valveTemplate
      .callApi (buildPrompt base user_message history_string)

/-- A char list is clean at its head: its first char, when any, is not
Python whitespace. -/
def cleanHead (l : List Char) : Prop :=
  ∀ c, l.head? = some c → pySpace c = false

/-- A char list is clean at its end: its last char, when any, is not
Python whitespace. -/
def cleanLast (l : List Char) : Prop :=
  ∀ c, l.getLast? = some c → pySpace c = false

/-! ## Lemmas about the strip primitives -/

theorem dropWhile_pySpace_head {l : List Char} :
    cleanHead (List.dropWhile pySpace l) := by
  intro c hc
  induction l with
  | nil => simp [List.dropWhile] at hc
  | cons a t ih =>
    rw [List.dropWhile_cons] at hc
    by_cases ha : pySpace a
    · rw [if_pos ha] at hc; exact ih hc
    · rw [if_neg ha] at hc
      simp only [List.head?_cons, Option.some.injEq] at hc
      subst hc
      exact Bool.not_eq_true _ ▸ (by simpa using ha)

theorem dropWhile_eq_self_of_cleanHead {l : List Char} (h : cleanHead l) :
    List.dropWhile pySpace l = l := by
  cases l with
  | nil => rfl
  | cons a t =>
    rw [List.dropWhile_cons, if_neg]
    simp [h a rfl]

theorem dropWhile_pySpace_idem (l : List Char) :
    List.dropWhile pySpace (List.dropWhile pySpace l) =
      List.dropWhile pySpace l :=
  dropWhile_eq_self_of_cleanHead dropWhile_pySpace_head

theorem getLast?_dropWhile_pySpace {l : List Char} {c : Char}
    (h : (List.dropWhile pySpace l).getLast? = some c) :
    l.getLast? = some c := by
  obtain ⟨t, ht⟩ := List.dropWhile_suffix (l := l) pySpace
  have hne : List.dropWhile pySpace l ≠ [] := by
    intro hnil; rw [hnil] at h; simp at h
  rw [← ht, List.getLast?_append_of_ne_nil t hne]
  exact h

theorem stripLC_head (l : List Char) : cleanHead (stripLC l) :=
  dropWhile_pySpace_head

theorem stripLC_eq_self_of_cleanHead {l : List Char} (h : cleanHead l) :
    stripLC l = l :=
  dropWhile_eq_self_of_cleanHead h

theorem stripLC_idem (l : List Char) : stripLC (stripLC l) = stripLC l :=
  dropWhile_pySpace_idem l

theorem stripLC_getLast {l : List Char} {c : Char}
    (h : (stripLC l).getLast? = some c) : l.getLast? = some c :=
  getLast?_dropWhile_pySpace h

theorem stripRC_cleanLast (l : List Char) : cleanLast (stripRC l) := by
  intro c hc
  unfold stripRC at hc
  rw [List.getLast?_reverse] at hc
  exact stripLC_head l.reverse c hc

theorem stripRC_head {l : List Char} {c : Char}
    (h : (stripRC l).head? = some c) : l.head? = some c := by
  unfold stripRC at h
  rw [List.head?_reverse] at h
  have h2 := stripLC_getLast h
  rw [List.getLast?_reverse] at h2
  exact h2

theorem stripRC_eq_self_of_cleanLast {l : List Char} (h : cleanLast l) :
    stripRC l = l := by
  unfold stripRC
  rw [stripLC_eq_self_of_cleanHead, List.reverse_reverse]
  intro c hc
  rw [List.head?_reverse] at hc
  exact h c hc

theorem stripC_cleanHead (l : List Char) : cleanHead (stripC l) := by
  intro c hc
  exact stripLC_head l c (stripRC_head hc)

theorem stripC_cleanLast (l : List Char) : cleanLast (stripC l) :=
  stripRC_cleanLast (stripLC l)

theorem stripC_eq_self {l : List Char} (h1 : cleanHead l) (h2 : cleanLast l) :
    stripC l = l := by
  unfold stripC
  rw [stripLC_eq_self_of_cleanHead h1]
  exact stripRC_eq_self_of_cleanLast h2

theorem stripC_idem (l : List Char) : stripC (stripC l) = stripC l :=
  stripC_eq_self (stripC_cleanHead l) (stripC_cleanLast l)

theorem pyStrip_idem (s : String) : pyStrip (pyStrip s) = pyStrip s :=
  congrArg String.mk (stripC_idem s.data)

/-! ## C1 -/

/-- C1: whenever the stripped `outputText` of a backend response contains
the fixed not-found indicator string, `_call_anima_api` returns exactly
that stripped `outputText`, with no citation block appended, whatever the
citations list holds. -/
theorem c1_not_found_short_circuit (resp : AnimaResponse)
    (h : pyIn notFoundIndicator (pyStrip resp.outputText) = true) :
    callAnimaApiSuccess resp = pyStrip resp.outputText := by
  unfold callAnimaApiSuccess
  simp only [h, if_true]
  exact pyStrip_idem resp.outputText

/-- C1 witness: the spec scenario, `outputText` equal to the indicator and
a non-empty citations list; the result is the indicator verbatim. -/
theorem c1_not_found_short_circuit_witness :
    callAnimaApiSuccess
      ⟨"Não encontrei a informação sobre isso na base de conhecimento",
       [.obj [.uri "s3://kb/doc.pdf"]]⟩ =
      "Não encontrei a informação sobre isso na base de conhecimento" := by
  rw [c1_not_found_short_circuit _ (by decide)]
  decide

/-! ## Order lemmas for the sort -/

theorem lexLe_total (a b : List Char) : lexLe a b = true ∨ lexLe b a = true := by
  induction a generalizing b with
  | nil => exact Or.inl rfl
  | cons x xs ih =>
    cases b with
    | nil => exact Or.inr rfl
    | cons y ys =>
      unfold lexLe
      rcases Nat.lt_trichotomy x.toNat y.toNat with hlt | heq | hgt
      · left; simp [hlt]
      · rcases ih ys with h | h
        · left; simp [heq, h]
        · right; simp [heq, h]
      · right; simp [hgt]

theorem lexLe_trans {a b c : List Char} (h1 : lexLe a b = true)
    (h2 : lexLe b c = true) : lexLe a c = true := by
  induction a generalizing b c with
  | nil => rfl
  | cons x xs ih =>
    cases b with
    | nil => simp [lexLe] at h1
    | cons y ys =>
      cases c with
      | nil => simp [lexLe] at h2
      | cons z zs =>
        unfold lexLe at h1 h2 ⊢
        by_cases hxy : x.toNat < y.toNat
        · by_cases hyz : y.toNat < z.toNat
          · simp [show x.toNat < z.toNat by omega]
          · rw [if_neg hyz] at h2
            by_cases hzy : z.toNat < y.toNat
            · rw [if_pos hzy] at h2; cases h2
            · simp [show x.toNat < z.toNat by omega]
        · rw [if_neg hxy] at h1
          by_cases hyx : y.toNat < x.toNat
          · rw [if_pos hyx] at h1; cases h1
          · rw [if_neg hyx] at h1
            by_cases hyz : y.toNat < z.toNat
            · simp [show x.toNat < z.toNat by omega]
            · rw [if_neg hyz] at h2
              by_cases hzy : z.toNat < y.toNat
              · rw [if_pos hzy] at h2; cases h2
              · rw [if_neg hzy] at h2
                rw [if_neg (show ¬ x.toNat < z.toNat by omega),
                    if_neg (show ¬ z.toNat < x.toNat by omega)]
                exact ih h1 h2

theorem strLe_total (a b : String) : strLe a b = true ∨ strLe b a = true :=
  lexLe_total a.data b.data

theorem strLe_trans {a b c : String} (h1 : strLe a b = true)
    (h2 : strLe b c = true) : strLe a c = true :=
  lexLe_trans h1 h2

theorem insertLe_perm (a : String) (l : List String) :
    (insertLe a l).Perm (a :: l) := by
  induction l with
  | nil => exact List.Perm.refl _
  | cons b t ih =>
    unfold insertLe
    by_cases hab : strLe a b = true
    · rw [if_pos hab]
    · rw [if_neg hab]
      exact (ih.cons b).trans (List.Perm.swap a b t)

theorem sortStrings_perm (l : List String) : (sortStrings l).Perm l := by
  induction l with
  | nil => exact List.Perm.refl _
  | cons a t ih =>
    exact (insertLe_perm a (sortStrings t)).trans (ih.cons a)

theorem mem_insertLe {a x : String} {l : List String}
    (h : x ∈ insertLe a l) : x = a ∨ x ∈ l := by
  have := (insertLe_perm a l).mem_iff.mp h
  simpa using this

theorem insertLe_sorted (a : String) {l : List String}
    (h : l.Pairwise (fun x y => strLe x y = true)) :
    (insertLe a l).Pairwise (fun x y => strLe x y = true) := by
  induction l with
  | nil => simp [insertLe]
  | cons b t ih =>
    unfold insertLe
    rcases List.pairwise_cons.mp h with ⟨hb, ht⟩
    by_cases hab : strLe a b = true
    · rw [if_pos hab]
      refine List.pairwise_cons.mpr ⟨?_, h⟩
      intro x hx
      rcases List.mem_cons.mp hx with hx | hx
      · rw [hx]; exact hab
      · exact strLe_trans hab (hb x hx)
    · rw [if_neg hab]
      refine List.pairwise_cons.mpr ⟨?_, ih ht⟩
      intro x hx
      rcases mem_insertLe hx with hx | hx
      · rw [hx]
        rcases strLe_total a b with hle | hle
        · exact absurd hle hab
        · exact hle
      · exact hb x hx

theorem sortStrings_sorted (l : List String) :
    (sortStrings l).Pairwise (fun x y => strLe x y = true) := by
  induction l with
  | nil => simp [sortStrings]
  | cons a t ih => exact insertLe_sorted a ih

/-! ## C2 and C3: invariants of the canonical citation fold -/

theorem citeFold_fst_nodup (pairs : List (String × String)) (c : Citation)
    (h : (pairs.map Prod.fst).Nodup) :
    ((citeFold pairs c).map Prod.fst).Nodup := by
  unfold citeFold
  cases hc : citationIdDisplay c with
  | none => exact h
  | some pr =>
    obtain ⟨id, disp⟩ := pr
    dsimp only
    split
    case isTrue h1 =>
      split
      case isTrue h2 =>
        split
        case isTrue h3 =>
          rw [List.map_append]
          have h4 := h1
          simp only [Bool.and_eq_true] at h4
          have hid : id ∉ pairs.map Prod.fst := by
            have h5 := h4.2
            rw [Bool.not_eq_true'] at h5
            simpa using h5
          simp only [List.map_cons, List.map_nil]
          exact ((List.perm_append_singleton _ _).nodup_iff).mpr
            (List.nodup_cons.mpr ⟨hid, h⟩)
        case isFalse => exact h
      case isFalse => exact h
    case isFalse => exact h

theorem foldl_citeFold_fst_nodup (citations_data : List Citation)
    (pairs : List (String × String)) (h : (pairs.map Prod.fst).Nodup) :
    ((citations_data.foldl citeFold pairs).map Prod.fst).Nodup := by
  induction citations_data generalizing pairs with
  | nil => exact h
  | cons c cs ih =>
    exact ih (citeFold pairs c) (citeFold_fst_nodup pairs c h)

theorem citeFold_mem (pairs : List (String × String)) (c : Citation)
    {pr : String × String} (h : pr ∈ citeFold pairs c) :
    pr ∈ pairs ∨
      (pr.2.length ≤ maxCitationFilenameLength ∧
       allowedCitationExtensions.contains (pyLower (pySplitextExt pr.2)) = true) := by
  unfold citeFold at h
  cases hc : citationIdDisplay c with
  | none => rw [hc] at h; exact Or.inl h
  | some q =>
    obtain ⟨id, disp⟩ := q
    rw [hc] at h
    dsimp only at h
    split at h
    case isTrue h1 =>
      split at h
      case isTrue h2 =>
        split at h
        case isTrue h3 =>
          rcases List.mem_append.mp h with hmem | hmem
          · exact Or.inl hmem
          · rw [List.mem_singleton] at hmem
            subst hmem
            exact Or.inr ⟨h2, h3⟩
        case isFalse => exact Or.inl h
      case isFalse => exact Or.inl h
    case isFalse => exact Or.inl h

theorem foldl_citeFold_mem (citations_data : List Citation)
    (pairs : List (String × String)) {pr : String × String}
    (h : pr ∈ citations_data.foldl citeFold pairs) :
    pr ∈ pairs ∨
      (pr.2.length ≤ maxCitationFilenameLength ∧
       allowedCitationExtensions.contains (pyLower (pySplitextExt pr.2)) = true) := by
  induction citations_data generalizing pairs with
  | nil => exact Or.inl h
  | cons c cs ih =>
    rcases ih (citeFold pairs c) h with hmem | hgood
    · exact citeFold_mem pairs c hmem
    · exact Or.inr hgood

theorem acceptedCitations_filters {citations_data : List Citation}
    {pr : String × String} (h : pr ∈ acceptedCitations citations_data) :
    pr.2.length ≤ maxCitationFilenameLength ∧
      allowedCitationExtensions.contains (pyLower (pySplitextExt pr.2)) = true := by
  rcases foldl_citeFold_mem citations_data [] h with hmem | hgood
  · simp at hmem
  · exact hgood

/-- C2: the canonical `_format_citations` deduplicates by source
identifier: over every citations list the accepted identifiers are pairwise
distinct (so a repeated identifier contributes one rendered source), and
two records with the same uri render one line while two records with
distinct uris but the same basename render two. -/
theorem c2_dedup_by_identifier :
    (∀ citations_data : List Citation,
        ((acceptedCitations citations_data).map Prod.fst).Nodup) ∧
    formatCitations
        [.obj [.uri "s3://kb/doc.pdf"], .obj [.uri "s3://kb/doc.pdf"]] =
      "\n\n**Fontes:**\n1. doc.pdf" ∧
    formatCitations
        [.obj [.uri "s3://a/doc.pdf"], .obj [.uri "s3://b/doc.pdf"]] =
      "\n\n**Fontes:**\n1. doc.pdf\n2. doc.pdf" := by
  refine ⟨fun cs => foldl_citeFold_fst_nodup cs [] (by simp), ?_, ?_⟩
  · decide
  · decide

/-- C3: a candidate whose display name is longer than the configured
maximum, or whose lower-cased extension is outside the allow-list, never
appears among the display names the canonical `_format_citations`
renders. -/
theorem c3_filtered_names_never_rendered
    (citations_data : List Citation) (disp : String)
    (h : maxCitationFilenameLength < disp.length ∨
         allowedCitationExtensions.contains (pyLower (pySplitextExt disp)) = false) :
    disp ∉ sortStrings ((acceptedCitations citations_data).map Prod.snd) := by
  intro hmem
  rw [(sortStrings_perm _).mem_iff] at hmem
  obtain ⟨pr, hpr, hsnd⟩ := List.mem_map.mp hmem
  have hgood := acceptedCitations_filters hpr
  rw [hsnd] at hgood
  rcases h with hlen | hext
  · omega
  · rw [hgood.2] at hext; cases hext

/-- C3 witness: a `.exe` reference is rejected, so its basename is not
among the rendered names of a concrete call. -/
theorem c3_filtered_names_never_rendered_witness :
    (maxCitationFilenameLength < ("x.exe" : String).length ∨
      allowedCitationExtensions.contains (pyLower (pySplitextExt "x.exe")) = false) ∧
    "x.exe" ∉ sortStrings
        ((acceptedCitations [.obj [.uri "s3://kb/x.exe"]]).map Prod.snd) :=
  ⟨by decide,
   c3_filtered_names_never_rendered [.obj [.uri "s3://kb/x.exe"]] "x.exe"
     (by decide)⟩

/-! ## C4: rendering shape of the canonical citation block -/

theorem renderedLines_getElem (names : List String) (i : Nat) :
    (renderedLines names)[i]? =
      (names[i]?).map (fun nm => toString (i + 1) ++ ". " ++ nm) := by
  unfold renderedLines
  rw [List.getElem?_map, List.getElem?_enum, Option.map_map]
  rfl

/-- C4: with at least one surviving candidate, the canonical
`_format_citations` renders the fixed header followed by the
newline-joined lines; the rendered names are a permutation of the
surviving display names sorted by the code-point lexicographic order, and
line `i` (0-based) reads `"<i+1>. <name_i>"`, so numbering is contiguous
and 1-indexed. -/
theorem c4_sorted_numbered_rendering (citations_data : List Citation)
    (h : (acceptedCitations citations_data).map Prod.snd ≠ []) :
    ∃ names : List String,
      names.Pairwise (fun a b => strLe a b = true) ∧
      names.Perm ((acceptedCitations citations_data).map Prod.snd) ∧
      (∀ i : Nat, (renderedLines names)[i]? =
        (names[i]?).map (fun nm => toString (i + 1) ++ ". " ++ nm)) ∧
      formatCitations citations_data =
        "\n\n**Fontes:**\n" ++ joinSep "\n" (renderedLines names) := by
  refine ⟨sortStrings ((acceptedCitations citations_data).map Prod.snd),
    sortStrings_sorted _, sortStrings_perm _, renderedLines_getElem _, ?_⟩
  unfold formatCitations
  rw [if_neg ?_]
  simp [List.isEmpty_iff, h]

/-- C4 witness: two references arriving in anti-lexicographic order are
rendered sorted, numbered from 1. -/
theorem c4_sorted_numbered_rendering_witness :
    ((acceptedCitations
        [.obj [.uri "s3://kb/b.pdf"], .obj [.uri "s3://kb/a.pdf"]]).map
        Prod.snd ≠ [] ∧
      formatCitations [.obj [.uri "s3://kb/b.pdf"], .obj [.uri "s3://kb/a.pdf"]] =
        "\n\n**Fontes:**\n1. a.pdf\n2. b.pdf") ∧
    ∃ names : List String,
      names.Pairwise (fun a b => strLe a b = true) ∧
      names.Perm ((acceptedCitations
        [.obj [.uri "s3://kb/b.pdf"], .obj [.uri "s3://kb/a.pdf"]]).map Prod.snd) ∧
      (∀ i : Nat, (renderedLines names)[i]? =
        (names[i]?).map (fun nm => toString (i + 1) ++ ". " ++ nm)) ∧
      formatCitations [.obj [.uri "s3://kb/b.pdf"], .obj [.uri "s3://kb/a.pdf"]] =
        "\n\n**Fontes:**\n" ++ joinSep "\n" (renderedLines names) :=
  ⟨⟨by decide, by decide⟩,
   c4_sorted_numbered_rendering
     [.obj [.uri "s3://kb/b.pdf"], .obj [.uri "s3://kb/a.pdf"]] (by decide)⟩

/-! ## Substring lemmas for the history marker truncation -/

theorem containsSeq_nil (m : List Char) : containsSeq m [] = m.isEmpty := rfl

theorem containsSeq_cons (m : List Char) (c : Char) (t : List Char) :
    containsSeq m (c :: t) = (m.isPrefixOf (c :: t) || containsSeq m t) := rfl

theorem isPrefixOf_append_self (m x : List Char) :
    m.isPrefixOf (m ++ x) = true := by
  induction m with
  | nil => simp [List.isPrefixOf]
  | cons a as ih => simp [List.isPrefixOf, ih]

theorem exists_append_of_isPrefixOf :
    ∀ {m l : List Char}, m.isPrefixOf l = true → ∃ t, l = m ++ t := by
  intro m
  induction m with
  | nil => exact fun {l} _ => ⟨l, rfl⟩
  | cons a as ih =>
    intro l h
    cases l with
    | nil => simp [List.isPrefixOf] at h
    | cons b bs =>
      simp only [List.isPrefixOf, Bool.and_eq_true, beq_iff_eq] at h
      obtain ⟨rfl, h2⟩ := h
      obtain ⟨t, rfl⟩ := ih h2
      exact ⟨t, rfl⟩

theorem takeBeforeSeq_append (m : List Char) :
    ∀ l : List Char, ∃ t, l = takeBeforeSeq m l ++ t := by
  intro l
  induction l with
  | nil => exact ⟨[], rfl⟩
  | cons c t ih =>
    unfold takeBeforeSeq
    by_cases h : m.isPrefixOf (c :: t) = true
    · rw [if_pos h]; exact ⟨c :: t, rfl⟩
    · rw [if_neg h]
      obtain ⟨u, hu⟩ := ih
      refine ⟨u, ?_⟩
      rw [List.cons_append, ← hu]

theorem containsSeq_mono {m : List Char} (q : List Char) :
    ∀ {l : List Char}, containsSeq m l = true → containsSeq m (l ++ q) = true := by
  intro l
  induction l with
  | nil =>
    intro h
    unfold containsSeq at h
    have hm : m = [] := by simpa [List.isEmpty_iff] using h
    subst hm
    cases q with
    | nil => rfl
    | cons c t => simp [containsSeq, List.isPrefixOf]
  | cons c t ih =>
    intro h
    rw [containsSeq_cons] at h
    rw [List.cons_append, containsSeq_cons, Bool.or_eq_true]
    rcases (Bool.or_eq_true _ _).mp h with h1 | h1
    · left
      obtain ⟨u, hu⟩ := exists_append_of_isPrefixOf h1
      have heq : c :: (t ++ q) = m ++ (u ++ q) := by
        rw [← List.append_assoc, ← hu]
        rfl
      rw [heq]
      exact isPrefixOf_append_self m (u ++ q)
    · right
      exact ih h1

theorem not_containsSeq_takeBefore {m : List Char} (hm : m ≠ []) :
    ∀ l : List Char, containsSeq m (takeBeforeSeq m l) = false := by
  intro l
  induction l with
  | nil => simp [takeBeforeSeq, containsSeq, List.isEmpty_iff, hm]
  | cons c t ih =>
    unfold takeBeforeSeq
    by_cases h : m.isPrefixOf (c :: t) = true
    · rw [if_pos h]; simp [containsSeq, List.isEmpty_iff, hm]
    · rw [if_neg h]
      rw [containsSeq_cons, ih, Bool.or_false]
      rw [Bool.eq_false_iff]
      intro h2
      obtain ⟨u, hu⟩ := exists_append_of_isPrefixOf h2
      obtain ⟨w, hw⟩ := takeBeforeSeq_append m t
      have heq : c :: t = m ++ (u ++ w) := by
        calc c :: t = c :: (takeBeforeSeq m t ++ w) := by rw [← hw]
        _ = (c :: takeBeforeSeq m t) ++ w := rfl
        _ = (m ++ u) ++ w := by rw [hu]
        _ = m ++ (u ++ w) := by rw [List.append_assoc]
      apply h
      rw [heq]
      exact isPrefixOf_append_self m (u ++ w)

theorem stripRC_append (x : List Char) : ∃ q, x = stripRC x ++ q := by
  obtain ⟨t, ht⟩ := List.dropWhile_suffix (l := x.reverse) pySpace
  refine ⟨t.reverse, ?_⟩
  have h2 := congrArg List.reverse ht
  rw [List.reverse_append, List.reverse_reverse] at h2
  exact h2.symm

theorem containsSeq_stripRC_false {m x : List Char}
    (h : containsSeq m x = false) : containsSeq m (stripRC x) = false := by
  by_contra h2
  rw [Bool.not_eq_false] at h2
  obtain ⟨q, hq⟩ := stripRC_append x
  have h3 := containsSeq_mono q h2
  rw [← hq, h] at h3
  cases h3

/-! ## C6 and C10: the history formatter -/

/-- C6: for an assistant turn whose extracted text contains the citation
marker, the rendered line (when one is emitted at all) is exactly
`"Assistant: "` followed by the text strictly before the first marker
occurrence with trailing whitespace trimmed, and that kept text does not
contain the marker anywhere. -/
theorem c6_assistant_marker_truncation (msg : Message)
    (hrole : msg.role = "assistant")
    (hmark : pyIn sourcesMarker (extractText msg.content) = true) :
    renderMessage msg =
      (if pyRStrip (pySplitFirstBefore sourcesMarker (extractText msg.content)) = ""
       then none
       else some ("Assistant: " ++
         pyRStrip (pySplitFirstBefore sourcesMarker (extractText msg.content)))) ∧
    pyIn sourcesMarker
      (pyRStrip (pySplitFirstBefore sourcesMarker (extractText msg.content))) = false := by
  constructor
  · have hne : extractText msg.content ≠ "" := by
      intro h0
      rw [h0] at hmark
      exact absurd hmark (by decide)
    unfold renderMessage
    rw [if_neg hne, if_pos hrole, hrole]
    have hcap : ∀ t : String, pyCapitalize "assistant" ++ ": " ++ t = "Assistant: " ++ t := by
      intro t
      show ("Assistant" : String) ++ ": " ++ t = "Assistant: " ++ t
      rw [String.append_assoc]
      rfl
    by_cases h0 :
        pyRStrip (pySplitFirstBefore sourcesMarker (extractText msg.content)) = ""
    · rw [if_pos h0, if_pos h0]
    · rw [if_neg h0, if_neg h0, hcap]
  · exact containsSeq_stripRC_false
      (not_containsSeq_takeBefore (by decide) (extractText msg.content).data)

/-- C6 witness: an assistant turn carrying a citation block is truncated to
the answer text alone. -/
theorem c6_assistant_marker_truncation_witness :
    renderMessage ⟨"assistant", .str "resposta\n\n**Fontes:**\n1. a.pdf"⟩ =
      some "Assistant: resposta" :=
  ((c6_assistant_marker_truncation
      ⟨"assistant", .str "resposta\n\n**Fontes:**\n1. a.pdf"⟩ rfl (by decide)).1).trans
    (by decide)

/-- C10: an assistant turn whose non-empty extracted text becomes empty
once truncated at the citation marker and right-trimmed is omitted from
the transcript entirely: it renders no line, and the formatted history of
any conversation containing it equals that of the conversation without
it. -/
theorem c10_pure_citation_turn_omitted (pre post : List Message) (msg : Message)
    (hrole : msg.role = "assistant")
    (hne : extractText msg.content ≠ "")
    (hempty : pyRStrip (pySplitFirstBefore sourcesMarker (extractText msg.content)) = "") :
    renderMessage msg = none ∧
    formatHistoryString (pre ++ msg :: post) = formatHistoryString (pre ++ post) := by
  have hnone : renderMessage msg = none := by
    unfold renderMessage
    rw [if_neg hne, if_pos hrole, if_pos hempty]
  refine ⟨hnone, ?_⟩
  unfold formatHistoryString
  rw [List.filterMap_append, List.filterMap_cons, hnone, List.filterMap_append]

/-- C10 witness: a history consisting of a user turn followed by an
assistant turn that is nothing but a citation block formats as if the
assistant turn were absent. -/
theorem c10_pure_citation_turn_omitted_witness :
    renderMessage ⟨"assistant", .str "\n\n**Fontes:**\n1. a.pdf"⟩ = none ∧
    formatHistoryString
        ([⟨"user", .str "oi"⟩] ++ ⟨"assistant", .str "\n\n**Fontes:**\n1. a.pdf"⟩ :: []) =
      formatHistoryString ([⟨"user", .str "oi"⟩] ++ []) :=
  c10_pure_citation_turn_omitted [⟨"user", .str "oi"⟩] []
    ⟨"assistant", .str "\n\n**Fontes:**\n1. a.pdf"⟩ rfl (by decide) (by decide)

/-! ## C7: duplicate suppression in `pipe` -/

/-- C7: when the conversation's last turn has role `"user"` and its content
matches the incoming message (plain string, or single typed-text part),
`pipe` drops that turn before building the transcript, which therefore
excludes it; in every other case the conversation, and hence the
transcript, is left intact. -/
theorem c7_duplicate_last_user_turn (user_message : String) (ms : List Message) :
    (∀ m, ms.getLast? = some m → m.role = "user" →
        isDuplicateContent user_message m.content = true →
        dropDuplicateLast user_message ms = ms.dropLast ∧
        formatHistoryString (dropDuplicateLast user_message ms) =
          formatHistoryString ms.dropLast) ∧
    (∀ m, ms.getLast? = some m →
        (m.role = "user" → isDuplicateContent user_message m.content = false) →
        dropDuplicateLast user_message ms = ms) ∧
    (ms = [] → dropDuplicateLast user_message ms = ms) := by
  refine ⟨?_, ?_, ?_⟩
  · intro m hm h1 h2
    have hdrop : dropDuplicateLast user_message ms = ms.dropLast := by
      unfold dropDuplicateLast
      rw [hm]
      simp [h1, h2]
    exact ⟨hdrop, by rw [hdrop]⟩
  · intro m hm h1
    unfold dropDuplicateLast
    rw [hm]
    by_cases hrole : m.role = "user"
    · simp [hrole, h1 hrole]
    · simp [hrole]
  · intro h
    subst h
    rfl

/-- C7 witness: a duplicated final user turn is dropped; a non-matching
final user turn is kept. -/
theorem c7_duplicate_last_user_turn_witness :
    dropDuplicateLast "oi" [⟨"user", .str "oi"⟩] = [] ∧
    dropDuplicateLast "oi" [⟨"user", .str "tchau"⟩] = [⟨"user", .str "tchau"⟩] :=
  ⟨((c7_duplicate_last_user_turn "oi" [⟨"user", .str "oi"⟩]).1
      ⟨"user", .str "oi"⟩ rfl rfl (by decide)).1,
   (c7_duplicate_last_user_turn "oi" [⟨"user", .str "tchau"⟩]).2.1
      ⟨"user", .str "tchau"⟩ rfl (fun _ => by decide)⟩

/-! ## C8: empty user message fails fast -/

/-- C8: with an empty `user_message`, `pipe` returns the fixed literal
error string at once, and in particular the backend collaborator is never
invoked: the outcome is not a `callApi` action for any prompt. -/
theorem c8_empty_message_fails_fast
    (bodyUserName bodyUserId bodyPromptTemplate : Option String)
    (valveTemplate : String) (messages : List Message) :
    pipeDecision "" bodyUserName bodyUserId bodyPromptTemplate valveTemplate
        messages = .error noUserMessageError ∧
    ∀ prompt, pipeDecision "" bodyUserName bodyUserId bodyPromptTemplate
        valveTemplate messages ≠ .callApi prompt := by
  constructor
  · rfl
  · intro prompt h
    rw [show pipeDecision "" bodyUserName bodyUserId bodyPromptTemplate
          valveTemplate messages = .error noUserMessageError from rfl] at h
    cases h

/-! ## Clean-ends lemmas for C5 -/

theorem string_mk_data (s : String) : String.mk s.data = s := by
  cases s
  rfl

theorem pyStrip_eq_self_of_clean {s : String} (h1 : cleanHead s.data)
    (h2 : cleanLast s.data) : pyStrip s = s := by
  unfold pyStrip
  rw [stripC_eq_self h1 h2, string_mk_data]

theorem data_ne_nil_of_ne_empty {s : String} (h : s ≠ "") : s.data ≠ [] := by
  intro h0
  exact h (String.ext h0)

theorem cleanLast_append {a b : String} (hb : b.data ≠ [])
    (h : cleanLast b.data) : cleanLast (a ++ b).data := by
  intro c hc
  rw [String.data_append, List.getLast?_append_of_ne_nil _ hb] at hc
  exact h c hc

theorem joinSep_clean {lines : List String}
    (h : ∀ s ∈ lines, s.data ≠ [] ∧ cleanLast s.data) (hne : lines ≠ []) :
    (joinSep "\n" lines).data ≠ [] ∧ cleanLast (joinSep "\n" lines).data := by
  induction lines with
  | nil => cases hne rfl
  | cons a t ih =>
    cases t with
    | nil =>
      have := h a (List.mem_singleton.mpr rfl)
      simpa [joinSep] using this
    | cons b t2 =>
      have ih2 := ih (fun s hs => h s (List.mem_cons_of_mem a hs)) (by simp)
      rw [show joinSep "\n" (a :: b :: t2) = a ++ "\n" ++ joinSep "\n" (b :: t2)
        from rfl]
      refine ⟨?_, cleanLast_append ih2.1 ih2.2⟩
      intro h0
      rw [String.data_append] at h0
      exact ih2.1 (List.append_eq_nil.mp h0).2

theorem renderedLines_clean {names : List String}
    (h : ∀ nm ∈ names, nm.data ≠ [] ∧ cleanLast nm.data) :
    ∀ s ∈ renderedLines names, s.data ≠ [] ∧ cleanLast s.data := by
  intro s hs
  unfold renderedLines at hs
  obtain ⟨p, hp, rfl⟩ := List.mem_map.mp hs
  obtain ⟨i, nm⟩ := p
  rw [List.enum_eq_zip_range] at hp
  have hsnd : nm ∈ names := (List.of_mem_zip hp).2
  obtain ⟨hne, hcl⟩ := h nm hsnd
  refine ⟨?_, cleanLast_append hne hcl⟩
  intro h0
  rw [String.data_append] at h0
  exact hne (List.append_eq_nil.mp h0).2

theorem pySpace_toLower_fix {c : Char} (h : pySpace c = true) :
    c.toLower = c := by
  unfold pySpace at h
  simp only [Bool.or_eq_true, decide_eq_true_eq] at h
  rcases h with ((((rfl | rfl) | rfl) | rfl) | rfl) | rfl <;> decide

theorem ext_clean_aux {e : List Char} {wl : Char}
    (h : (e.map Char.toLower).getLast? = some wl) (hw : pySpace wl = false) :
    ∃ c, e.getLast? = some c ∧ pySpace c = false := by
  rw [List.getLast?_map] at h
  cases he : e.getLast? with
  | none => rw [he] at h; cases h
  | some c =>
    rw [he] at h
    have h2 : Char.toLower c = wl := by simpa using h
    refine ⟨c, rfl, ?_⟩
    by_contra hc
    rw [Bool.not_eq_false] at hc
    rw [pySpace_toLower_fix hc] at h2
    rw [h2] at hc
    rw [hc] at hw
    cases hw

theorem ext_clean_aux2 {e wd : List Char} (hd : e.map Char.toLower = wd)
    (hclean : wd.getLast?.any (fun c => !(pySpace c)) = true) :
    ∃ c, e.getLast? = some c ∧ pySpace c = false := by
  cases hw : wd.getLast? with
  | none => rw [hw] at hclean; cases hclean
  | some wl =>
    rw [hw] at hclean
    have hwlc : pySpace wl = false := by simpa using hclean
    exact ext_clean_aux (by rw [hd]; exact hw) hwlc

theorem splitextExtC_suffix (l : List Char) : ∃ t, l = t ++ splitextExtC l := by
  unfold splitextExtC
  cases h : l.reverse.findIdx? (fun c => c = '.') with
  | none => exact ⟨l, by simp⟩
  | some i =>
    dsimp only
    cases h2 : (l.take (l.length - 1 - i)).any (fun c => !(c = '.')) with
    | false => exact ⟨l, by simp⟩
    | true =>
      refine ⟨(l.reverse.drop (i + 1)).reverse, ?_⟩
      show l = (l.reverse.drop (i + 1)).reverse ++ (l.reverse.take (i + 1)).reverse
      rw [← List.reverse_append, List.take_append_drop, List.reverse_reverse]

theorem ext_filter_clean {d : String}
    (h : allowedCitationExtensions.contains (pyLower (pySplitextExt d)) = true) :
    d.data ≠ [] ∧ cleanLast d.data := by
  have hmem : pyLower (pySplitextExt d) ∈ allowedCitationExtensions := by
    simpa using h
  simp only [allowedCitationExtensions, List.mem_cons] at hmem
  have hex : ∃ c, (splitextExtC d.data).getLast? = some c ∧ pySpace c = false := by
    rcases hmem with
        h1 | h1 | h1 | h1 | h1 | h1 | h1 | h1 | h1 | h1 | h1 | h1 | h1 | h1 | h1 <;>
      first
        | exact ext_clean_aux2 (congrArg String.data h1) (by decide)
        | exact absurd h1 (List.not_mem_nil _)
  obtain ⟨c, hc, hcl⟩ := hex
  obtain ⟨t, ht⟩ := splitextExtC_suffix d.data
  have he_ne : splitextExtC d.data ≠ [] := by
    intro h0
    rw [h0] at hc
    cases hc
  constructor
  · intro h0
    rw [ht] at h0
    exact he_ne (List.append_eq_nil.mp h0).2
  · intro ch hch
    rw [ht, List.getLast?_append_of_ne_nil _ he_ne] at hch
    rw [hc] at hch
    injection hch with hch
    rw [← hch]
    exact hcl

theorem formatCitations_cleanLast (cs : List Citation) :
    cleanLast (formatCitations cs).data := by
  unfold formatCitations
  by_cases hd : ((acceptedCitations cs).map Prod.snd).isEmpty = true
  · rw [if_pos hd]
    intro c hc
    cases hc
  · rw [if_neg hd]
    have hnames : ∀ nm ∈ sortStrings ((acceptedCitations cs).map Prod.snd),
        nm.data ≠ [] ∧ cleanLast nm.data := by
      intro nm hm
      rw [(sortStrings_perm _).mem_iff] at hm
      obtain ⟨pr, hpr, rfl⟩ := List.mem_map.mp hm
      exact ext_filter_clean (acceptedCitations_filters hpr).2
    have hdisp_ne : (acceptedCitations cs).map Prod.snd ≠ [] := by
      simpa [List.isEmpty_iff] using hd
    have hsort_ne : sortStrings ((acceptedCitations cs).map Prod.snd) ≠ [] := by
      intro h0
      apply hdisp_ne
      have hp := sortStrings_perm ((acceptedCitations cs).map Prod.snd)
      rw [h0] at hp
      exact hp.symm.eq_nil
    have hlines_ne :
        renderedLines (sortStrings ((acceptedCitations cs).map Prod.snd)) ≠ [] := by
      intro h0
      apply hsort_ne
      have hlen := congrArg List.length h0
      simp only [renderedLines, List.length_map, List.enum_length,
        List.length_nil] at hlen
      exact List.length_eq_zero.mp hlen
    have hjoin := joinSep_clean (renderedLines_clean hnames) hlines_ne
    exact cleanLast_append hjoin.1 hjoin.2

/-! ## C5 -/

/-- C5: without the not-found indicator, `_call_anima_api` assembles its
result from the stripped output text and the rendered citation block: text
plus block when the text is non-empty; the block alone with its leading
whitespace removed when only the block is non-empty; the fixed fallback
sentence when both are empty. -/
theorem c5_response_assembly (resp : AnimaResponse)
    (hni : pyIn notFoundIndicator (pyStrip resp.outputText) = false) :
    (pyStrip resp.outputText ≠ "" →
        callAnimaApiSuccess resp =
          pyStrip resp.outputText ++ formatCitations resp.citations) ∧
    (pyStrip resp.outputText = "" → formatCitations resp.citations ≠ "" →
        callAnimaApiSuccess resp = pyLStrip (formatCitations resp.citations)) ∧
    (pyStrip resp.outputText = "" → formatCitations resp.citations = "" →
        callAnimaApiSuccess resp = noAnswerFallback) := by
  have hbody : callAnimaApiSuccess resp =
      pyStrip (if pyStrip resp.outputText ≠ "" then
          pyStrip resp.outputText ++ formatCitations resp.citations
        else if formatCitations resp.citations ≠ "" then
          pyLStrip (formatCitations resp.citations)
        else noAnswerFallback) := by
    simp only [callAnimaApiSuccess]
    rw [if_neg (by simp [hni])]
  refine ⟨?_, ?_, ?_⟩
  · intro hne
    rw [hbody, if_pos hne]
    apply pyStrip_eq_self_of_clean
    · intro c hc
      rw [String.data_append,
        List.head?_append_of_ne_nil _ (data_ne_nil_of_ne_empty hne)] at hc
      exact stripC_cleanHead resp.outputText.data c hc
    · intro c hc
      rw [String.data_append] at hc
      by_cases hct : (formatCitations resp.citations).data = []
      · rw [hct, List.append_nil] at hc
        exact stripC_cleanLast resp.outputText.data c hc
      · rw [List.getLast?_append_of_ne_nil _ hct] at hc
        exact formatCitations_cleanLast resp.citations c hc
  · intro h0 hct
    rw [hbody, if_neg (not_not_intro h0), if_pos hct]
    apply pyStrip_eq_self_of_clean
    · exact stripLC_head (formatCitations resp.citations).data
    · intro c hc
      exact formatCitations_cleanLast resp.citations c (stripLC_getLast hc)
  · intro h0 hct
    rw [hbody, if_neg (not_not_intro h0), if_neg (not_not_intro hct)]
    decide

/-- C5 witness: the three branches on concrete responses: text plus block,
block alone (header stripped of its leading blank lines, matching the
spec's `"**Fontes:**\n1. doc.pdf"` scenario), and the fallback sentence. -/
theorem c5_response_assembly_witness :
    callAnimaApiSuccess ⟨"resposta", [.obj [.uri "s3://kb/doc.pdf"]]⟩ =
      "resposta\n\n**Fontes:**\n1. doc.pdf" ∧
    callAnimaApiSuccess ⟨"", [.obj [.uri "s3://kb/doc.pdf"]]⟩ =
      "**Fontes:**\n1. doc.pdf" ∧
    callAnimaApiSuccess ⟨"", []⟩ =
      "Não foi possível gerar uma resposta com as informações disponíveis." :=
  ⟨((c5_response_assembly ⟨"resposta", [.obj [.uri "s3://kb/doc.pdf"]]⟩
        (by decide)).1 (by decide)).trans (by decide),
   ((c5_response_assembly ⟨"", [.obj [.uri "s3://kb/doc.pdf"]]⟩
        (by decide)).2.1 (by decide) (by decide)).trans (by decide),
   ((c5_response_assembly ⟨"", []⟩ (by decide)).2.2 (by decide) (by decide)).trans
     (by decide)⟩

/-! ## C9: the weduka variant -/

/-- C9 counterexample: the claim that the weduka `_format_citations` "does
not sort display names before 1-indexed numbering" is false: on the input
`["b", "a"]` the weduka formatter renders `a` first (the lexicographically
smaller name) and not the insertion order `b`, `a` — the source sorts via
`sorted(list(formatted_references))` before enumerating. -/
theorem c9_weduka_no_sort_counterexample :
    wedukaFormatCitations [.str "b", .str "a"] = "\n\n**Fontes:**\n1. a\n2. b" ∧
    wedukaFormatCitations [.str "b", .str "a"] ≠ "\n\n**Fontes:**\n1. b\n2. a" := by
  exact ⟨by decide, by decide⟩

/-- C9 amended: the weduka variant applies neither the extension allow-list
filter nor the display-name length filter — a `.exe` reference and a
59-char display name both render, where the canonical formatter rejects
them, so the two variants' blocks differ on those inputs — but it does
sort the deduplicated display names before numbering them. -/
theorem c9_weduka_unfiltered_but_sorted :
    (wedukaFormatCitations [.obj [.uri "s3://kb/x.exe"]] =
        "\n\n**Fontes:**\n1. x.exe" ∧
      formatCitations [.obj [.uri "s3://kb/x.exe"]] = "" ∧
      wedukaFormatCitations [.obj [.uri "s3://kb/x.exe"]] ≠
        formatCitations [.obj [.uri "s3://kb/x.exe"]]) ∧
    (wedukaFormatCitations
        [.obj [.uri "s3://kb/aaaaaaaaaaaaaaaaaaaaaaaaaaaaaaaaaaaaaaaaaaaaaaaaaaaaaaa.pdf"]] =
        "\n\n**Fontes:**\n1. aaaaaaaaaaaaaaaaaaaaaaaaaaaaaaaaaaaaaaaaaaaaaaaaaaaaaaa.pdf" ∧
      ("aaaaaaaaaaaaaaaaaaaaaaaaaaaaaaaaaaaaaaaaaaaaaaaaaaaaaaa.pdf" : String).length >
        maxCitationFilenameLength ∧
      formatCitations
        [.obj [.uri "s3://kb/aaaaaaaaaaaaaaaaaaaaaaaaaaaaaaaaaaaaaaaaaaaaaaaaaaaaaaa.pdf"]] = "") ∧
    wedukaFormatCitations [.str "b", .str "a"] = "\n\n**Fontes:**\n1. a\n2. b" := by
  exact ⟨⟨by decide, by decide, by decide⟩, ⟨by decide, by decide, by decide⟩, by decide⟩

end Pocs

